import Mathlib

set_option maxRecDepth 100000

/-!
# Verification of the todo-list store (`src/pages/index.tsx`)

Shallow embedding of the state-management logic of the single-page todo
application.  The component state that the claims concern is the task list
`todos : List Todo` together with the auxiliary input fields
(`inputValue`, `editingId`, `editText`); each event handler of the source
becomes a pure function on that data.

Modelling decisions (platform functions, not repository code):
* JavaScript `Date` values are epoch milliseconds.  `Date.now()` is a
  nonnegative integer number of milliseconds, modelled as a `Nat`
  parameter `now` supplied by the environment; nothing constrains two
  successive reads of the clock to differ.
* `String.prototype.trim` strips whitespace from both ends; it is
  modelled on the character list of the string (`jsTrim`).  The
  JavaScript whitespace set is larger than the four characters modelled
  here, but no claim exercises the exotic ones.
* `JSON.stringify` / `JSON.parse` are modelled at the level of the JSON
  value tree (`Json` below): the platform guarantees that parsing a
  stringified tree returns the tree, so the persistent slot is modelled
  as holding either nothing, an unparseable string, or a `Json` value.
* `Date.prototype.toJSON` produces the millisecond-precision ISO-8601
  string; `new Date(string)` parses it back.  Both are implemented
  concretely below (`isoOfMs`, `parseIsoChars`) for the simple
  `YYYY-MM-DDTHH:MM:SS.mmmZ` form, which covers every string the
  application itself writes.
-/

/-! ## JavaScript string trimming -/

/-- JavaScript whitespace characters relevant to trimming (the common core
of the WhiteSpace/LineTerminator productions). -/
def isWsChar (c : Char) : Bool :=
  c == ' ' || c == '\t' || c == '\n' || c == '\r'

/-- Remove leading whitespace from a character list. -/
def trimLeftChars (cs : List Char) : List Char :=
  cs.dropWhile isWsChar

/-- Remove trailing whitespace from a character list. -/
def trimRightChars (cs : List Char) : List Char :=
  ((cs.reverse).dropWhile isWsChar).reverse

/-- `String.prototype.trim` on the character list. -/
def jsTrimChars (cs : List Char) : List Char :=
  trimRightChars (trimLeftChars cs)

/-- `String.prototype.trim`. -/
def jsTrim (s : String) : String :=
  ⟨jsTrimChars s.data⟩

/-! ## The task data model -/

/-- The `Todo` interface of the source: `id`, `text`, `completed`,
`createdAt` (a `Date`, modelled as epoch milliseconds). -/
structure Todo where
  id : String
  text : String
  completed : Bool
  createdAt : Nat
  deriving Repr, DecidableEq

/-! ## Store operations

Each event handler of the component, as a pure function of the state it
reads.  `now` stands for the value of the system clock (`Date.now()` /
`new Date()`) at the moment the handler runs. -/

/-- `addTodo`: no-op when the trimmed input is empty, otherwise prepends a
new task with id `Date.now().toString()`, the trimmed text, `completed:
false` and the current timestamp, and clears the input field.  Returns the
new `(todos, inputValue)` pair. -/
def addTodo (now : Nat) (inputValue : String) (todos : List Todo) :
    List Todo × String :=
  if jsTrim inputValue = "" then (todos, inputValue)
  else
    ({ id := toString now
       text := jsTrim inputValue
       completed := false
       createdAt := now } :: todos, "")

/-- `toggleTodo`: flip `completed` on the task whose id matches. -/
def toggleTodo (id : String) (todos : List Todo) : List Todo :=
  todos.map fun todo =>
    if todo.id = id then { todo with completed := !todo.completed } else todo

/-- `deleteTodo`: keep the tasks whose id differs. -/
def deleteTodo (id : String) (todos : List Todo) : List Todo :=
  todos.filter fun todo => todo.id ≠ id

/-- `clearCompleted`: keep the tasks that are not completed. -/
def clearCompleted (todos : List Todo) : List Todo :=
  todos.filter fun todo => !todo.completed

/-- `saveEdit`: guarded by the truthiness of `editingId` (non-null and
non-empty string) and of `editText.trim()` (non-empty); when the guard
holds, replaces the text of the task whose id is `editingId` by the
trimmed edit text and resets the editing fields.  Returns the new
`(todos, editingId, editText)` triple. -/
def saveEdit (editingId : Option String) (editText : String)
    (todos : List Todo) : List Todo × Option String × String :=
  match editingId with
  | none => (todos, editingId, editText)
  | some eid =>
    if eid ≠ "" ∧ jsTrim editText ≠ "" then
      (todos.map fun todo =>
        if todo.id = eid then { todo with text := jsTrim editText } else todo,
       none, "")
    else (todos, editingId, editText)

/-- The three filter modes of the component state. -/
inductive FilterMode where
  | all
  | active
  | completed
  deriving Repr, DecidableEq

/-- `filteredTodos`: the pure filtering query over the list. -/
def filteredTodos (mode : FilterMode) (todos : List Todo) : List Todo :=
  todos.filter fun todo =>
    match mode with
    | FilterMode.active => !todo.completed
    | FilterMode.completed => todo.completed
    | FilterMode.all => true

/-- `itemsLeft`: the count of active (not completed) tasks. -/
def itemsLeft (todos : List Todo) : Nat :=
  (todos.filter fun todo => !todo.completed).length

/-! ## Properties of trimming -/

theorem dropWhile_dropWhile_self (p : Char → Bool) :
    ∀ l : List Char, (l.dropWhile p).dropWhile p = l.dropWhile p := by
  intro l
  induction l with
  | nil => rfl
  | cons a t ih =>
    by_cases h : p a = true
    · simp [List.dropWhile_cons, h, ih]
    · simp [List.dropWhile_cons, h]

theorem trimRightChars_idem (l : List Char) :
    trimRightChars (trimRightChars l) = trimRightChars l := by
  simp [trimRightChars, dropWhile_dropWhile_self]

theorem trimLeftChars_head (l : List Char) :
    trimLeftChars l = [] ∨
      ∃ a t, trimLeftChars l = a :: t ∧ isWsChar a = false := by
  induction l with
  | nil => exact Or.inl rfl
  | cons a t ih =>
    by_cases h : isWsChar a = true
    · simpa [trimLeftChars, List.dropWhile_cons, h] using ih
    · exact Or.inr ⟨a, t, by simp [trimLeftChars, List.dropWhile_cons, h], by simpa using h⟩

theorem trimRightChars_prefix (l : List Char) : trimRightChars l <+: l := by
  rw [← List.reverse_suffix]
  simpa [trimRightChars] using List.dropWhile_suffix (l := l.reverse) isWsChar

theorem jsTrimChars_idem (cs : List Char) :
    jsTrimChars (jsTrimChars cs) = jsTrimChars cs := by
  show trimRightChars (trimLeftChars (trimRightChars (trimLeftChars cs))) = _
  have key : trimLeftChars (trimRightChars (trimLeftChars cs)) =
      trimRightChars (trimLeftChars cs) := by
    rcases trimLeftChars_head cs with h | ⟨a, t, h, hws⟩
    · rw [h]
      rfl
    · rcases hpre : trimRightChars (trimLeftChars cs) with _ | ⟨b, u⟩
      · rfl
      · have hp : trimRightChars (trimLeftChars cs) <+: trimLeftChars cs :=
          trimRightChars_prefix _
        rw [hpre, h] at hp
        obtain ⟨tail, htail⟩ := hp
        rw [List.cons_append] at htail
        have hb : b = a := (List.cons.injEq _ _ _ _ ▸ htail).1
        subst hb
        simp [trimLeftChars, List.dropWhile_cons, hws]
  rw [key, trimRightChars_idem]
  rfl

theorem jsTrim_idem (s : String) : jsTrim (jsTrim s) = jsTrim s :=
  congrArg String.mk (jsTrimChars_idem s.data)

/-! ## Operation sequences and reachable states

The store starts from the empty list (`useState<Todo[]>([])`); every later
state is obtained by running event handlers.  An `Op` records one handler
invocation together with the environment data it reads (the clock value
and the contents of the input fields at that moment). -/

/-- One invocation of a mutating event handler. -/
inductive Op where
  | add (now : Nat) (input : String)
  | toggle (id : String)
  | del (id : String)
  | clear
  | edit (editingId : Option String) (editText : String)
  deriving Repr

/-- Apply one handler invocation to the task list. -/
def applyOp (todos : List Todo) : Op → List Todo
  | Op.add now input => (addTodo now input todos).1
  | Op.toggle id => toggleTodo id todos
  | Op.del id => deleteTodo id todos
  | Op.clear => clearCompleted todos
  | Op.edit eid etext => (saveEdit eid etext todos).1

/-- The task list reached from the initial empty store by a sequence of
handler invocations. -/
def runOps (ops : List Op) : List Todo :=
  ops.foldl applyOp []

/-! ## Calendar arithmetic

`Date.prototype.toJSON` and `new Date(string)` are ECMA-262 platform
functions; they are modelled here on epoch milliseconds with proleptic
Gregorian calendar arithmetic in the style of the ECMA-262 `DaysInYear` /
`DayFromYear` / `MonthFromTime` definitions (a linear scan over years and
months, which both the year scan `findYear` and its inverse sum
`daysBefore970` implement). -/

def isLeapYear (y : Nat) : Bool :=
  (y % 4 == 0 && y % 100 != 0) || y % 400 == 0

def daysInYear (y : Nat) : Nat :=
  if isLeapYear y then 366 else 365

def monthLen (y m : Nat) : Nat :=
  if m = 2 then (if isLeapYear y then 29 else 28)
  else if m = 4 ∨ m = 6 ∨ m = 9 ∨ m = 11 then 30
  else 31

def findYear : Nat → Nat → Nat → Nat × Nat
  | 0, y, days => (y, days)
  | fuel+1, y, days =>
    if days < daysInYear y then (y, days)
    else findYear fuel (y+1) (days - daysInYear y)

def findMonth : Nat → Nat → Nat → Nat → Nat × Nat
  | 0, _, m, doy => (m, doy)
  | fuel+1, y, m, doy =>
    if doy < monthLen y m then (m, doy)
    else findMonth fuel y (m+1) (doy - monthLen y m)

def civilFromDays (days : Nat) : Nat × Nat × Nat :=
  let p := findYear (days+1) 1970 days
  let q := findMonth 12 p.1 1 p.2
  (p.1, q.1, q.2 + 1)

def daysBefore970 : Nat → Nat
  | 0 => 0
  | n+1 => daysBefore970 n + daysInYear (1970 + n)

def monthsBefore (y : Nat) : Nat → Nat
  | 0 => 0
  | m+1 => monthsBefore y m + monthLen y (m+1)

def daysFromCivil (y m d : Nat) : Nat :=
  daysBefore970 (y - 1970) + monthsBefore y (m - 1) + (d - 1)

-- sanity
example : civilFromDays 0 = (1970, 1, 1) := by decide
example : civilFromDays 19000 = (2022, 1, 8) := by decide
example : daysFromCivil 2022 1 8 = 19000 := by decide

theorem daysInYear_bounds (y : Nat) : 365 ≤ daysInYear y ∧ daysInYear y ≤ 366 := by
  unfold daysInYear; split <;> omega

theorem daysBefore970_succ (n : Nat) :
    daysBefore970 (n+1) = daysBefore970 n + daysInYear (1970 + n) := rfl

theorem findYear_correct : ∀ fuel y days, days < fuel → 1970 ≤ y →
    daysBefore970 ((findYear fuel y days).1 - 1970) + (findYear fuel y days).2 =
      daysBefore970 (y - 1970) + days ∧
    (findYear fuel y days).2 < daysInYear (findYear fuel y days).1 ∧
    y ≤ (findYear fuel y days).1 := by
  intro fuel
  induction fuel with
  | zero => intro y days h _; omega
  | succ fuel ih =>
    intro y days h hy
    simp only [findYear]
    split
    · exact ⟨rfl, by assumption, Nat.le_refl y⟩
    · rename_i hge
      have hb := daysInYear_bounds y
      have h1 : days - daysInYear y < fuel := by omega
      have h2 : 1970 ≤ y + 1 := by omega
      have := ih (y+1) (days - daysInYear y) h1 h2
      have hstep : daysBefore970 (y + 1 - 1970) =
          daysBefore970 (y - 1970) + daysInYear y := by
        have hn : y + 1 - 1970 = (y - 1970) + 1 := by omega
        rw [hn, daysBefore970_succ]
        have : 1970 + (y - 1970) = y := by omega
        rw [this]
      omega

theorem monthLen_bounds (y m : Nat) : 28 ≤ monthLen y m ∧ monthLen y m ≤ 31 := by
  unfold monthLen
  split
  · split <;> omega
  · split <;> omega

theorem monthsBefore_year (y : Nat) : monthsBefore y 12 = daysInYear y := by
  cases h : isLeapYear y <;>
    simp [monthsBefore, monthLen, daysInYear, h]

theorem findMonth_correct : ∀ fuel y m doy, 1 ≤ m → m + fuel = 13 →
    monthsBefore y (m - 1) + doy < daysInYear y →
    monthsBefore y ((findMonth fuel y m doy).1 - 1) + (findMonth fuel y m doy).2 =
      monthsBefore y (m - 1) + doy ∧
    (findMonth fuel y m doy).2 < monthLen y (findMonth fuel y m doy).1 ∧
    1 ≤ (findMonth fuel y m doy).1 ∧ (findMonth fuel y m doy).1 ≤ 12 := by
  intro fuel
  induction fuel with
  | zero =>
    intro y m doy h1 h2 hlt
    have hm : m = 13 := by omega
    subst hm
    have hy := monthsBefore_year y
    have e : (13:Nat) - 1 = 12 := rfl
    rw [e] at hlt
    omega
  | succ fuel ih =>
    intro y m doy h1 h2 hlt
    simp only [findMonth]
    split
    · exact ⟨rfl, by assumption, h1, by omega⟩
    · rename_i hge
      have hm12 : m ≤ 11 := by
        by_contra hc
        have hm : m = 12 := by omega
        subst hm
        have hy := monthsBefore_year y
        have h11 : monthsBefore y 12 = monthsBefore y 11 + monthLen y 12 := rfl
        have e : (12:Nat) - 1 = 11 := rfl
        rw [e] at hlt
        omega
      have hstep : monthsBefore y (m + 1 - 1) =
          monthsBefore y (m - 1) + monthLen y m := by
        have hn : m + 1 - 1 = (m - 1) + 1 := by omega
        rw [hn]
        show monthsBefore y (m - 1) + monthLen y ((m-1)+1) = _
        have : m - 1 + 1 = m := by omega
        rw [this]
      have := ih y (m+1) (doy - monthLen y m) (by omega) (by omega) (by omega)
      omega


theorem isLeapYear_period (y : Nat) : isLeapYear (y + 400) = isLeapYear y := by
  have h4 : (y + 400) % 4 = y % 4 := by omega
  have h100 : (y + 400) % 100 = y % 100 := by omega
  have h400 : (y + 400) % 400 = y % 400 := by omega
  simp [isLeapYear, h4, h100, h400]

theorem daysInYear_period (y : Nat) : daysInYear (y + 400) = daysInYear y := by
  simp [daysInYear, isLeapYear_period]

theorem daysBefore970_shift : ∀ n, daysBefore970 (n + 400) = daysBefore970 n + 146097 := by
  intro n
  induction n with
  | zero => decide
  | succ n ih =>
    have l1 : daysBefore970 (n + 400 + 1) =
        daysBefore970 (n + 400) + daysInYear (1970 + (n + 400)) :=
      daysBefore970_succ _
    have l2 : daysBefore970 (n + 1) = daysBefore970 n + daysInYear (1970 + n) :=
      daysBefore970_succ _
    have l3 : daysInYear (1970 + (n + 400)) = daysInYear (1970 + n) := by
      have e2 : 1970 + (n + 400) = (1970 + n) + 400 := by omega
      rw [e2, daysInYear_period]
    have e1 : n + 1 + 400 = n + 400 + 1 := by omega
    rw [e1]
    omega

theorem daysBefore970_shift_mul : ∀ k n, daysBefore970 (n + 400 * k) = daysBefore970 n + 146097 * k := by
  intro k
  induction k with
  | zero => simp
  | succ k ih =>
    intro n
    have e1 : n + 400 * (k + 1) = (n + 400 * k) + 400 := by ring
    rw [e1, daysBefore970_shift, ih]
    ring

theorem daysBefore970_8030 : daysBefore970 8030 = 2932897 := by
  have h := daysBefore970_shift_mul 20 30
  have e : (30 : Nat) + 400 * 20 = 8030 := by norm_num
  rw [e] at h
  rw [h]
  have : daysBefore970 30 = 10957 := by decide
  rw [this]

theorem daysBefore970_mono : ∀ a b, a ≤ b → daysBefore970 a ≤ daysBefore970 b := by
  intro a b h
  induction b with
  | zero =>
    have : a = 0 := by omega
    subst this
    exact Nat.le_refl _
  | succ b ih =>
    rcases Nat.lt_or_ge a (b+1) with h1 | h1
    · have := ih (by omega)
      have l1 := daysBefore970_succ b
      omega
    · have : a = b + 1 := by omega
      subst this
      exact Nat.le_refl _


def digitChar (n : Nat) : Char :=
  if n % 10 = 0 then '0' else if n % 10 = 1 then '1'
  else if n % 10 = 2 then '2' else if n % 10 = 3 then '3'
  else if n % 10 = 4 then '4' else if n % 10 = 5 then '5'
  else if n % 10 = 6 then '6' else if n % 10 = 7 then '7'
  else if n % 10 = 8 then '8' else '9'

def digitVal (c : Char) : Nat := c.toNat - 48

def isDigitCh (c : Char) : Bool := decide (48 ≤ c.toNat) && decide (c.toNat ≤ 57)

def pad2 (n : Nat) : List Char := [digitChar (n / 10), digitChar n]

def pad3 (n : Nat) : List Char := [digitChar (n / 100), digitChar (n / 10), digitChar n]

def pad4 (n : Nat) : List Char :=
  [digitChar (n / 1000), digitChar (n / 100), digitChar (n / 10), digitChar n]

def isoCharsOfMs (ms : Nat) : List Char :=
  let r := ms % 86400000
  let c := civilFromDays (ms / 86400000)
  pad4 c.1 ++ '-' :: pad2 c.2.1 ++ '-' :: pad2 c.2.2 ++
    'T' :: pad2 (r / 3600000) ++ ':' :: pad2 (r % 3600000 / 60000) ++
    ':' :: pad2 (r % 60000 / 1000) ++ '.' :: pad3 (r % 1000) ++ ['Z']

def isoOfMs (ms : Nat) : String := ⟨isoCharsOfMs ms⟩

def parseIsoChars : List Char → Option Nat
  | [y0,y1,y2,y3,c1,m0,m1,c2,d0,d1,c3,h0,h1,c4,i0,i1,c5,s0,s1,c6,f0,f1,f2,c7] =>
    if c1 = '-' ∧ c2 = '-' ∧ c3 = 'T' ∧ c4 = ':' ∧ c5 = ':' ∧ c6 = '.' ∧ c7 = 'Z' ∧
        isDigitCh y0 = true ∧ isDigitCh y1 = true ∧ isDigitCh y2 = true ∧ isDigitCh y3 = true ∧
        isDigitCh m0 = true ∧ isDigitCh m1 = true ∧ isDigitCh d0 = true ∧ isDigitCh d1 = true ∧
        isDigitCh h0 = true ∧ isDigitCh h1 = true ∧ isDigitCh i0 = true ∧ isDigitCh i1 = true ∧
        isDigitCh s0 = true ∧ isDigitCh s1 = true ∧
        isDigitCh f0 = true ∧ isDigitCh f1 = true ∧ isDigitCh f2 = true then
      let y := 1000 * digitVal y0 + 100 * digitVal y1 + 10 * digitVal y2 + digitVal y3
      let m := 10 * digitVal m0 + digitVal m1
      let d := 10 * digitVal d0 + digitVal d1
      let hh := 10 * digitVal h0 + digitVal h1
      let mi := 10 * digitVal i0 + digitVal i1
      let ss := 10 * digitVal s0 + digitVal s1
      let f := 100 * digitVal f0 + 10 * digitVal f1 + digitVal f2
      if 1 ≤ m ∧ m ≤ 12 ∧ 1 ≤ d ∧ d ≤ 31 ∧ hh ≤ 23 ∧ mi ≤ 59 ∧ ss ≤ 59 then
        some (daysFromCivil y m d * 86400000 + hh * 3600000 + mi * 60000 + ss * 1000 + f)
      else none
    else none
  | _ => none

def parseIsoDate (s : String) : Option Nat := parseIsoChars s.data

-- sanity
example : isoOfMs 0 = "1970-01-01T00:00:00.000Z" := by decide
example : parseIsoDate "1970-01-01T00:00:00.000Z" = some 0 := by decide

theorem digitVal_digitChar (n : Nat) : digitVal (digitChar n) = n % 10 := by
  have h : n % 10 < 10 := Nat.mod_lt _ (by omega)
  simp only [digitChar]
  split_ifs with h0 h1 h2 h3 h4 h5 h6 h7 h8
  · rw [h0]; decide
  · rw [h1]; decide
  · rw [h2]; decide
  · rw [h3]; decide
  · rw [h4]; decide
  · rw [h5]; decide
  · rw [h6]; decide
  · rw [h7]; decide
  · rw [h8]; decide
  · have h9 : n % 10 = 9 := by omega
    rw [h9]; decide

theorem isDigitCh_digitChar (n : Nat) : isDigitCh (digitChar n) = true := by
  simp only [digitChar]
  split_ifs <;> decide

theorem civilFromDays_correct (days : Nat) (h : days ≤ 2932896) :
    daysFromCivil (civilFromDays days).1 (civilFromDays days).2.1
      (civilFromDays days).2.2 = days ∧
    1970 ≤ (civilFromDays days).1 ∧ (civilFromDays days).1 ≤ 9999 ∧
    1 ≤ (civilFromDays days).2.1 ∧ (civilFromDays days).2.1 ≤ 12 ∧
    1 ≤ (civilFromDays days).2.2 ∧ (civilFromDays days).2.2 ≤ 31 := by
  have hfy := findYear_correct (days+1) 1970 days (by omega) (by omega)
  simp only [civilFromDays, daysFromCivil]
  set p := findYear (days+1) 1970 days with hp
  have h0 : daysBefore970 (1970 - 1970) = 0 := rfl
  have hfm := findMonth_correct 12 p.1 1 p.2 (by omega) (by omega)
    (by
      have e : monthsBefore p.1 (1 - 1) = 0 := rfl
      omega)
  set q := findMonth 12 p.1 1 p.2 with hq
  have e1 : monthsBefore p.1 (1 - 1) = 0 := rfl
  have e2 : q.2 + 1 - 1 = q.2 := by omega
  rw [e2]
  have hmb := monthLen_bounds p.1 q.1
  constructor
  · omega
  refine ⟨by omega, ?_, by omega, by omega, by omega, by omega⟩
  -- p.1 ≤ 9999
  by_contra hgt
  have h8030 : 8030 ≤ p.1 - 1970 := by omega
  have := daysBefore970_mono 8030 (p.1 - 1970) h8030
  have h83 := daysBefore970_8030
  omega

def maxIsoMs : Nat := 253402300799999


theorem parseIso_isoOfMs (ms : Nat) (h : ms ≤ maxIsoMs) :
    parseIsoChars (isoCharsOfMs ms) = some ms := by
  have hdays : ms / 86400000 ≤ 2932896 := by
    simp only [maxIsoMs] at h; omega
  have hc := civilFromDays_correct (ms / 86400000) hdays
  simp only [isoCharsOfMs, pad4, pad3, pad2, List.cons_append, List.nil_append]
  set c := civilFromDays (ms / 86400000) with hcdef
  set r := ms % 86400000 with hrdef
  obtain ⟨hinv, hy1, hy2, hm1, hm2, hd1, hd2⟩ := hc
  have hr : r < 86400000 := by omega
  simp only [parseIsoChars]
  rw [if_pos (by simp [isDigitCh_digitChar])]
  simp only [digitVal_digitChar]
  have ey : 1000 * (c.1 / 1000 % 10) + 100 * (c.1 / 100 % 10) +
      10 * (c.1 / 10 % 10) + c.1 % 10 = c.1 := by omega
  have em : 10 * (c.2.1 / 10 % 10) + c.2.1 % 10 = c.2.1 := by omega
  have ed : 10 * (c.2.2 / 10 % 10) + c.2.2 % 10 = c.2.2 := by omega
  rw [ey, em, ed]
  rw [if_pos (by omega :
    1 ≤ c.2.1 ∧ c.2.1 ≤ 12 ∧ 1 ≤ c.2.2 ∧ c.2.2 ≤ 31 ∧
    10 * (r / 3600000 / 10 % 10) + r / 3600000 % 10 ≤ 23 ∧
    10 * (r % 3600000 / 60000 / 10 % 10) + r % 3600000 / 60000 % 10 ≤ 59 ∧
    10 * (r % 60000 / 1000 / 10 % 10) + r % 60000 / 1000 % 10 ≤ 59)]
  rw [hinv]
  exact congrArg some (by omega)

/-! ## Persistence

`JSON.stringify(todos)` with `Date.prototype.toJSON` turns the list into a
JSON array of records whose `createdAt` is the ISO-8601 string;
`localStorage` holds the serialized text.  The slot contents are modelled
as: absent (`getItem` returned `null`, or the falsy empty string, so the
load effect skips the parse), an unparseable string (`JSON.parse` throws,
the `catch` logs to `console.error` and the state stays empty), or a
parsed JSON value. -/

/-- JSON value trees.  The application only ever writes strings, booleans,
arrays and objects; numbers are carried as integers, which covers every
input the theorems exercise. -/
inductive Json where
  | null
  | bool (b : Bool)
  | num (n : Int)
  | str (s : String)
  | arr (elems : List Json)
  | obj (fields : List (String × Json))
  deriving Repr

/-- JavaScript property access `j[k]` for the decoded value: `none` models
`undefined` (missing property, or access on a non-object primitive). -/
def jsGetField : Json → String → Option Json
  | Json.obj fields, k => fields.lookup k
  | _, _ => none

/-- `new Date(v)` on an optional property value, as an optional
millisecond timestamp (`none` models an Invalid Date).  Strings parse in
the ISO form the application writes; numbers are taken as milliseconds;
`null` and booleans coerce to 0/1 as in JavaScript; objects and arrays
are not valid dates (no theorem exercises their string-coercion corner
cases); times before the epoch are out of the modelled range. -/
def dateOfJson : Option Json → Option Nat
  | some (Json.str s) => parseIsoChars s.data
  | some (Json.num n) => if 0 ≤ n then some n.toNat else none
  | some Json.null => some 0
  | some (Json.bool b) => some (if b then 1 else 0)
  | _ => none

/-- The observable fields of one element produced by the load effect's
`(todo) => ({ ...todo, createdAt: new Date(todo.createdAt) })`. -/
structure RawTodo where
  id : Option Json
  text : Option Json
  completed : Option Json
  createdAt : Option Nat
  deriving Repr

/-- Decode one array element the way the load effect does: spread the
parsed value and replace `createdAt` by `new Date(...)` of it. -/
def decodeTodoJson (j : Json) : RawTodo :=
  { id := jsGetField j "id"
    text := jsGetField j "text"
    completed := jsGetField j "completed"
    createdAt := dateOfJson (jsGetField j "createdAt") }

/-- `JSON.stringify` of one task, with `Date.prototype.toJSON` applied to
`createdAt` (field order follows the object literal in `addTodo`). -/
def encodeTodo (t : Todo) : Json :=
  Json.obj [("id", Json.str t.id), ("text", Json.str t.text),
    ("completed", Json.bool t.completed),
    ("createdAt", Json.str (isoOfMs t.createdAt))]

/-- `JSON.stringify(todos)`: the serialized form of the whole list. -/
def encodeTodos (todos : List Todo) : Json :=
  Json.arr (todos.map encodeTodo)

/-- Contents of the persistent slot at load time. -/
inductive Stored where
  | absent
  | corrupt
  | json (j : Json)
  deriving Repr

/-- The load effect: the resulting task list together with whether a
failure was reported to `console.error`.  `absent` skips the load;
`corrupt` is caught by the `try`/`catch` and logged; a parsed non-array
value makes `.map` throw a `TypeError`, also caught and logged; a parsed
array is mapped element-wise with no validation of record shape.  The
effect never throws to its caller (it is a total function). -/
def loadResult : Stored → List RawTodo × Bool
  | Stored.absent => ([], false)
  | Stored.corrupt => ([], true)
  | Stored.json (Json.arr elems) => (elems.map decodeTodoJson, false)
  | Stored.json _ => ([], true)

/-- Read a loaded record back as a well-formed task when its fields have
the persisted shape. -/
def todoOfRaw (r : RawTodo) : Option Todo :=
  match r.id, r.text, r.completed, r.createdAt with
  | some (Json.str i), some (Json.str x), some (Json.bool c), some ms =>
    some { id := i, text := x, completed := c, createdAt := ms }
  | _, _, _, _ => none

/-- Modelled from the spec: the persistent storage contract of §6, "a
JSON-encoded array of task records `{id: string, text: string, completed:
boolean, createdAt: ISO-8601 string}`" — the strict decoder of a stored
representation, returning `none` when the value is not of that shape. -/
def specDecodeRecord : Json → Option Todo
  | Json.obj fields =>
    match fields.lookup "id", fields.lookup "text",
        fields.lookup "completed", fields.lookup "createdAt" with
    | some (Json.str i), some (Json.str x), some (Json.bool c),
        some (Json.str dt) =>
      (parseIsoChars dt.data).map fun ms =>
        { id := i, text := x, completed := c, createdAt := ms }
    | _, _, _, _ => none
  | _ => none

/-- Modelled from the spec: a stored value is a valid representation
exactly when it is an array of task records; the strict decode of the
whole slot. -/
def specDecodeStored : Json → Option (List Todo)
  | Json.arr elems => elems.mapM specDecodeRecord
  | _ => none

/-- The image of a well-formed task under serialize-then-load. -/
def rawOfTodo (t : Todo) : RawTodo :=
  { id := some (Json.str t.id)
    text := some (Json.str t.text)
    completed := some (Json.bool t.completed)
    createdAt := some t.createdAt }

theorem parseIsoChars_isoOfMs_data (ms : Nat) (h : ms ≤ maxIsoMs) :
    parseIsoChars (isoOfMs ms).data = some ms :=
  parseIso_isoOfMs ms h

theorem decodeTodoJson_encodeTodo (t : Todo) (h : t.createdAt ≤ maxIsoMs) :
    decodeTodoJson (encodeTodo t) = rawOfTodo t := by
  simp [decodeTodoJson, encodeTodo, rawOfTodo, jsGetField, dateOfJson,
    List.lookup, parseIsoChars_isoOfMs_data t.createdAt h]

/-! ## Demonstration tasks used by concrete witnesses -/

def tA : Todo := { id := "1", text := "a", completed := false, createdAt := 0 }

def tB : Todo := { id := "2", text := "b", completed := true, createdAt := 1 }

def t5 : Todo := { id := "5", text := "x", completed := false, createdAt := 5 }

/-! ## Claims -/

/-- C1: the claim says the `id` values of the tasks in every reachable
store state are pairwise distinct and never reused.  The code assigns
`Date.now().toString()`, so two `add` operations during the same clock
millisecond create two tasks with the same id: after adding non-blank
texts twice at clock value 1700000000000, the reachable list carries the
id "1700000000000" twice, and its ids are not pairwise distinct.  (The
component itself relies on uniqueness, using `todo.id` as a React list
key.) -/
theorem claim_C1_duplicate_ids_on_same_millisecond :
    ((runOps [Op.add 1700000000000 "Buy milk", Op.add 1700000000000 "Walk dog"]).map Todo.id) = ["1700000000000", "1700000000000"] ∧
    ¬ ((runOps [Op.add 1700000000000 "Buy milk", Op.add 1700000000000 "Walk dog"]).map Todo.id).Nodup := by
  constructor
  · decide
  · decide

/-- C3 counterexample: the claim asserts the new task always has a fresh
id.  Adding at clock value 5 to a list that already contains a task with
id "5" produces a head task whose id equals the existing task's id. -/
theorem claim_C3_counterexample :
    (addTodo 5 "a" [t5]).1.length = 2 ∧
    (addTodo 5 "a" [t5]).1.head? = some { id := "5", text := "a", completed := false, createdAt := 5 } ∧
    ¬ ((addTodo 5 "a" [t5]).1.map Todo.id).Nodup := by
  refine ⟨by decide, by decide, by decide⟩

/-- C3 (amended): for non-blank trimmed input, `add` increases the length
by exactly 1 and prepends the new task with the trimmed text,
`completed = false`, the current timestamp, and id equal to the decimal
string of the current clock value (fresh only when no existing task
carries that string); for blank trimmed input the state is unchanged. -/
theorem claim_C3_add_behavior (now : Nat) (input : String) (todos : List Todo) :
    (jsTrim input ≠ "" →
      (addTodo now input todos).1 = { id := toString now, text := jsTrim input, completed := false, createdAt := now } :: todos ∧
      (addTodo now input todos).1.length = todos.length + 1) ∧
    (jsTrim input = "" → addTodo now input todos = (todos, input)) := by
  constructor
  · intro h
    simp [addTodo, h]
  · intro h
    simp [addTodo, h]

theorem claim_C3_add_behavior_witness :
    ((addTodo 7 " Buy milk " []).1 = [{ id := "7", text := "Buy milk", completed := false, createdAt := 7 }] ∧
     (addTodo 7 " Buy milk " []).1.length = ([] : List Todo).length + 1) ∧
    addTodo 3 "   " [] = ([], "   ") := by
  refine ⟨?_, ?_⟩
  · exact (claim_C3_add_behavior 7 " Buy milk " []).1 (by decide)
  · exact (claim_C3_add_behavior 3 "   " []).2 (by decide)

/-- C4: toggling the same id twice restores the original list; a toggle
on an id no task carries is a no-op; and a toggle flips the completed
flag of every task carrying that id. -/
theorem claim_C4_toggle_involution (id : String) (todos : List Todo) :
    toggleTodo id (toggleTodo id todos) = todos ∧
    ((∀ t ∈ todos, t.id ≠ id) → toggleTodo id todos = todos) ∧
    (∀ t ∈ todos, t.id = id → { t with completed := !t.completed } ∈ toggleTodo id todos) := by
  refine ⟨?_, ?_, ?_⟩
  · induction todos with
    | nil => rfl
    | cons a t ih =>
      simp only [toggleTodo, List.map_cons] at ih ⊢
      obtain ⟨i, x, c, d⟩ := a
      by_cases h : i = id
      · simp [h, Bool.not_not, ih]
      · simp [h, ih]
  · intro h
    induction todos with
    | nil => rfl
    | cons a t ih =>
      simp only [toggleTodo, List.map_cons] at ih ⊢
      have ha : a.id ≠ id := h a (List.mem_cons_self a t)
      have ht := ih fun u hu => h u (List.mem_cons_of_mem a hu)
      simp [ha, ht]
  · intro t ht hid
    exact List.mem_map.mpr ⟨t, ht, by simp [hid]⟩

theorem claim_C4_toggle_involution_witness :
    toggleTodo "1" (toggleTodo "1" [tA, tB]) = [tA, tB] ∧
    toggleTodo "9" [tA] = [tA] ∧
    ({ id := "1", text := "a", completed := true, createdAt := 0 } : Todo) ∈ toggleTodo "1" [tA] := by
  refine ⟨(claim_C4_toggle_involution "1" [tA, tB]).1, ?_, ?_⟩
  · exact (claim_C4_toggle_involution "9" [tA]).2.1 (by decide)
  · exact (claim_C4_toggle_involution "1" [tA]).2.2 tA (by decide) (by decide)

/-- C6: `clearCompleted` keeps exactly the unfinished tasks, in their
original relative order (the result is a sublist of the input). -/
theorem claim_C6_clearCompleted_exact (todos : List Todo) :
    (clearCompleted todos).Sublist todos ∧
    ∀ t, t ∈ clearCompleted todos ↔ t ∈ todos ∧ t.completed = false := by
  refine ⟨List.filter_sublist _, fun t => ?_⟩
  simp [clearCompleted]

theorem claim_C6_clearCompleted_exact_witness :
    (clearCompleted [tB, tA]).Sublist [tB, tA] ∧
    ∀ t, t ∈ clearCompleted [tB, tA] ↔ t ∈ [tB, tA] ∧ t.completed = false :=
  claim_C6_clearCompleted_exact [tB, tA]

/-- C9: deleting the same id twice gives the same list as deleting it
once, and deleting an id no task carries is a no-op. -/
theorem claim_C9_delete_idempotent (id : String) (todos : List Todo) :
    deleteTodo id (deleteTodo id todos) = deleteTodo id todos ∧
    ((∀ t ∈ todos, t.id ≠ id) → deleteTodo id todos = todos) := by
  constructor
  · induction todos with
    | nil => rfl
    | cons a t ih =>
      simp only [deleteTodo] at ih ⊢
      by_cases h : a.id = id
      · simp [h, ih]
      · simp [h, ih]
  · intro h
    exact List.filter_eq_self.mpr fun a ha => by simpa using h a ha

theorem claim_C9_delete_idempotent_witness :
    deleteTodo "1" (deleteTodo "1" [tA, tB]) = deleteTodo "1" [tA, tB] ∧
    deleteTodo "9" [tB] = [tB] := by
  refine ⟨(claim_C9_delete_idempotent "1" [tA, tB]).1, ?_⟩
  exact (claim_C9_delete_idempotent "9" [tB]).2 (by decide)

/-- A task's text is a non-empty trimmed string. -/
def textOk (t : Todo) : Prop := t.text ≠ "" ∧ jsTrim t.text = t.text

instance (t : Todo) : Decidable (textOk t) :=
  inferInstanceAs (Decidable (_ ∧ _))

def tEmptyId : Todo := { id := "", text := "x", completed := false, createdAt := 0 }

/-- C5 counterexample: the claim quantifies over every store state and id
present in the list.  The persisted-storage contract only requires `id`
to be a string, so a store state can hold a task whose id is the empty
string; `saveEdit` guards on the truthiness of `editingId`, and the empty
string is falsy, so editing that task with the non-blank text
`"  new  "` leaves its text `"x"` instead of setting it to `"new"`. -/
theorem claim_C5_counterexample :
    tEmptyId ∈ [tEmptyId] ∧
    jsTrim "  new  " = "new" ∧
    (saveEdit (some "") "  new  " [tEmptyId]).1.map Todo.text = ["x"] := by
  refine ⟨by decide, by decide, by decide⟩

/-- C5 (amended): for every task whose (non-empty) id is present in the
list, an edit with blank trimmed text leaves the state unchanged, and an
edit with non-blank trimmed text replaces that task's text by the trimmed
value; consequently every task's text stays a non-empty trimmed string
across create and edit. -/
theorem claim_C5_edit_text (todos : List Todo) (eid etext : String) :
    (jsTrim etext = "" → saveEdit (some eid) etext todos = (todos, some eid, etext)) ∧
    (eid ≠ "" → jsTrim etext ≠ "" → ∀ t ∈ todos, t.id = eid → { t with text := jsTrim etext } ∈ (saveEdit (some eid) etext todos).1) ∧
    ((∀ t ∈ todos, textOk t) → ∀ t ∈ (saveEdit (some eid) etext todos).1, textOk t) ∧
    (∀ now input, (∀ t ∈ todos, textOk t) → ∀ t ∈ (addTodo now input todos).1, textOk t) := by
  refine ⟨?_, ?_, ?_, ?_⟩
  · intro h
    simp [saveEdit, h]
  · intro he hn t ht hid
    simp only [saveEdit]
    rw [if_pos ⟨he, hn⟩]
    exact List.mem_map.mpr ⟨t, ht, by simp [hid]⟩
  · intro hall t ht
    by_cases hg : eid ≠ "" ∧ jsTrim etext ≠ ""
    · simp only [saveEdit] at ht
      rw [if_pos hg] at ht
      obtain ⟨u, hu, hut⟩ := List.mem_map.mp ht
      by_cases hid : u.id = eid
      · rw [if_pos hid] at hut
        rw [← hut]
        exact ⟨hg.2, jsTrim_idem etext⟩
      · rw [if_neg hid] at hut
        rw [← hut]
        exact hall u hu
    · simp only [saveEdit] at ht
      rw [if_neg hg] at ht
      exact hall t ht
  · intro now input hall t ht
    by_cases h : jsTrim input = ""
    · simp only [addTodo] at ht
      rw [if_pos h] at ht
      exact hall t ht
    · simp only [addTodo] at ht
      rw [if_neg h] at ht
      rcases List.mem_cons.mp ht with rfl | hm
      · exact ⟨h, jsTrim_idem input⟩
      · exact hall t hm

theorem claim_C5_edit_text_witness :
    saveEdit (some "1") "   " [tA] = ([tA], some "1", "   ") ∧
    ({ id := "1", text := "new", completed := false, createdAt := 0 } : Todo) ∈ (saveEdit (some "1") "  new  " [tA]).1 ∧
    (∀ t ∈ (saveEdit (some "1") "  new  " [tA]).1, textOk t) ∧
    (∀ t ∈ (addTodo 7 " Buy milk " [tA]).1, textOk t) := by
  refine ⟨?_, ?_, ?_, ?_⟩
  · exact (claim_C5_edit_text [tA] "1" "   ").1 (by decide)
  · exact (claim_C5_edit_text [tA] "1" "  new  ").2.1 (by decide) (by decide) tA (by decide) (by decide)
  · exact (claim_C5_edit_text [tA] "1" "  new  ").2.2.1 (by decide)
  · exact (claim_C5_edit_text [tA] "1" "x").2.2.2 7 " Buy milk " (by decide)

/-- C8: the filtering queries are pure functions of the list (they return
a sublist and mutate nothing); `all` returns the whole list, `active`
exactly the unfinished tasks, `completed` exactly the finished ones, each
in list order; `itemsLeft` counts the active tasks.  The concluding
conjuncts replay the spec scenario: adding "Buy milk" then "Walk dog"
from empty (at clock values 1 and 2) lists newest first, and after
toggling the id of "Buy milk" the queries split the list as claimed. -/
theorem claim_C8_filter_and_count (todos : List Todo) :
    filteredTodos FilterMode.all todos = todos ∧
    (filteredTodos FilterMode.active todos).Sublist todos ∧
    (∀ t, t ∈ filteredTodos FilterMode.active todos ↔ t ∈ todos ∧ t.completed = false) ∧
    (filteredTodos FilterMode.completed todos).Sublist todos ∧
    (∀ t, t ∈ filteredTodos FilterMode.completed todos ↔ t ∈ todos ∧ t.completed = true) ∧
    itemsLeft todos = (filteredTodos FilterMode.active todos).length ∧
    (runOps [Op.add 1 "Buy milk", Op.add 2 "Walk dog"]).map Todo.text = ["Walk dog", "Buy milk"] ∧
    (filteredTodos FilterMode.active (runOps [Op.add 1 "Buy milk", Op.add 2 "Walk dog", Op.toggle "1"])).map Todo.text = ["Walk dog"] ∧
    (filteredTodos FilterMode.completed (runOps [Op.add 1 "Buy milk", Op.add 2 "Walk dog", Op.toggle "1"])).map Todo.text = ["Buy milk"] ∧
    itemsLeft (runOps [Op.add 1 "Buy milk", Op.add 2 "Walk dog", Op.toggle "1"]) = 1 := by
  refine ⟨?_, List.filter_sublist _, fun t => ?_, List.filter_sublist _,
    fun t => ?_, ?_, by decide, by decide, by decide, by decide⟩
  · simp [filteredTodos]
  · simp [filteredTodos]
  · simp [filteredTodos]
  · rfl

theorem claim_C8_filter_and_count_witness :
    filteredTodos FilterMode.all [tA, tB] = [tA, tB] ∧
    (filteredTodos FilterMode.active [tA, tB]).Sublist [tA, tB] ∧
    (∀ t, t ∈ filteredTodos FilterMode.active [tA, tB] ↔ t ∈ [tA, tB] ∧ t.completed = false) ∧
    (filteredTodos FilterMode.completed [tA, tB]).Sublist [tA, tB] ∧
    (∀ t, t ∈ filteredTodos FilterMode.completed [tA, tB] ↔ t ∈ [tA, tB] ∧ t.completed = true) ∧
    itemsLeft [tA, tB] = (filteredTodos FilterMode.active [tA, tB]).length ∧
    (runOps [Op.add 1 "Buy milk", Op.add 2 "Walk dog"]).map Todo.text = ["Walk dog", "Buy milk"] ∧
    (filteredTodos FilterMode.active (runOps [Op.add 1 "Buy milk", Op.add 2 "Walk dog", Op.toggle "1"])).map Todo.text = ["Walk dog"] ∧
    (filteredTodos FilterMode.completed (runOps [Op.add 1 "Buy milk", Op.add 2 "Walk dog", Op.toggle "1"])).map Todo.text = ["Buy milk"] ∧
    itemsLeft (runOps [Op.add 1 "Buy milk", Op.add 2 "Walk dog", Op.toggle "1"]) = 1 :=
  claim_C8_filter_and_count [tA, tB]

/-- C10: `toggle` preserves length and order and changes nothing but the
completed flag of the matching tasks; a successful `saveEdit` preserves
length and order and changes nothing but the text of the matching
tasks. -/
theorem claim_C10_toggle_edit_frame (id eid etext : String) (todos : List Todo) :
    (toggleTodo id todos).length = todos.length ∧
    (∀ i, i < todos.length → ∃ t u, todos[i]? = some t ∧ (toggleTodo id todos)[i]? = some u ∧
      u.id = t.id ∧ u.text = t.text ∧ u.createdAt = t.createdAt ∧
      (t.id ≠ id → u = t) ∧ (t.id = id → u.completed = !t.completed)) ∧
    (eid ≠ "" → jsTrim etext ≠ "" →
      (saveEdit (some eid) etext todos).1.length = todos.length ∧
      (∀ i, i < todos.length → ∃ t u, todos[i]? = some t ∧ (saveEdit (some eid) etext todos).1[i]? = some u ∧
        u.id = t.id ∧ u.completed = t.completed ∧ u.createdAt = t.createdAt ∧
        (t.id ≠ eid → u = t) ∧ (t.id = eid → u.text = jsTrim etext))) := by
  refine ⟨?_, ?_, ?_⟩
  · simp [toggleTodo]
  · intro i hi
    by_cases h : todos[i].id = id
    · exact ⟨todos[i], { todos[i] with completed := !todos[i].completed },
        List.getElem?_eq_getElem hi,
        by simp [toggleTodo, List.getElem?_map, List.getElem?_eq_getElem hi, h],
        by simp, by simp, by simp, fun hc => absurd h hc, fun _ => by simp⟩
    · exact ⟨todos[i], todos[i], List.getElem?_eq_getElem hi,
        by simp [toggleTodo, List.getElem?_map, List.getElem?_eq_getElem hi, h],
        rfl, rfl, rfl, fun _ => rfl, fun hc => absurd hc h⟩
  · intro he hn
    simp only [saveEdit]
    rw [if_pos ⟨he, hn⟩]
    refine ⟨by simp, ?_⟩
    intro i hi
    by_cases h : todos[i].id = eid
    · exact ⟨todos[i], { todos[i] with text := jsTrim etext },
        List.getElem?_eq_getElem hi,
        by simp [List.getElem?_map, List.getElem?_eq_getElem hi, h],
        by simp, by simp, by simp, fun hc => absurd h hc, fun _ => by simp⟩
    · exact ⟨todos[i], todos[i], List.getElem?_eq_getElem hi,
        by simp [List.getElem?_map, List.getElem?_eq_getElem hi, h],
        rfl, rfl, rfl, fun _ => rfl, fun hc => absurd hc h⟩

theorem claim_C10_toggle_edit_frame_witness :
    (toggleTodo "1" [tA, tB]).length = [tA, tB].length ∧
    (∃ t u, [tA, tB][0]? = some t ∧ (toggleTodo "1" [tA, tB])[0]? = some u ∧
      u.id = t.id ∧ u.text = t.text ∧ u.createdAt = t.createdAt ∧
      (t.id ≠ "1" → u = t) ∧ (t.id = "1" → u.completed = !t.completed)) ∧
    (saveEdit (some "1") " new " [tA, tB]).1.length = [tA, tB].length := by
  refine ⟨(claim_C10_toggle_edit_frame "1" "1" " new " [tA, tB]).1, ?_, ?_⟩
  · exact (claim_C10_toggle_edit_frame "1" "1" " new " [tA, tB]).2.1 0 (by decide)
  · exact ((claim_C10_toggle_edit_frame "1" "1" " new " [tA, tB]).2.2 (by decide) (by decide)).1

theorem todoOfRaw_rawOfTodo (t : Todo) : todoOfRaw (rawOfTodo t) = some t := rfl

/-- C2: serializing the list to the persisted JSON form (ISO-8601 strings
for the timestamps) and loading it back yields the original list — same
ids, texts, completed flags, and millisecond-exact timestamps, that being
the precision the serialized form retains.  The hypothesis keeps every
timestamp inside the simple `YYYY-…Z` ISO range the model implements
(years up to 9999). -/
theorem claim_C2_roundtrip (todos : List Todo)
    (h : ∀ t ∈ todos, t.createdAt ≤ maxIsoMs) :
    (loadResult (Stored.json (encodeTodos todos))).1.map todoOfRaw = todos.map some := by
  simp only [loadResult, encodeTodos]
  induction todos with
  | nil => rfl
  | cons a t ih =>
    have ha := decodeTodoJson_encodeTodo a (h a (List.mem_cons_self a t))
    have iht := ih fun u hu => h u (List.mem_cons_of_mem a hu)
    simp only [List.map_cons]
    rw [ha, todoOfRaw_rawOfTodo, iht]

theorem claim_C2_roundtrip_witness :
    (loadResult (Stored.json (encodeTodos [tA, tB]))).1.map todoOfRaw = [tA, tB].map some :=
  claim_C2_roundtrip [tA, tB] (by decide)

theorem specDecodeRecord_encodeTodo (t : Todo) (h : t.createdAt ≤ maxIsoMs) :
    specDecodeRecord (encodeTodo t) = some t := by
  simp [specDecodeRecord, encodeTodo, List.lookup,
    parseIsoChars_isoOfMs_data t.createdAt h]

theorem specDecodeStored_encodeTodos (todos : List Todo)
    (h : ∀ t ∈ todos, t.createdAt ≤ maxIsoMs) :
    specDecodeStored (encodeTodos todos) = some todos := by
  simp only [specDecodeStored, encodeTodos]
  induction todos with
  | nil => rfl
  | cons a t ih =>
    have ha := specDecodeRecord_encodeTodo a (h a (List.mem_cons_self a t))
    have iht := ih fun u hu => h u (List.mem_cons_of_mem a hu)
    simp only [List.map_cons, List.mapM_cons, ha, iht]
    rfl

/-- C7 counterexample: the claim says every persisted input either is a
valid stored representation (and decodes to the task list) or leads to
the empty list.  The JSON array `[{}]` is not a valid representation
(the strict decoder of the storage contract rejects it), yet the load
effect accepts any parsed array element-wise, producing one malformed
task rather than the empty list. -/
theorem claim_C7_counterexample :
    (specDecodeStored (Json.arr [Json.obj []])).isNone = true ∧
    (loadResult (Stored.json (Json.arr [Json.obj []]))).1.length = 1 ∧
    (loadResult (Stored.json (Json.arr [Json.obj []]))).2 = false := by
  refine ⟨by decide, by decide, by decide⟩

/-- C7 (amended): when the stored data is absent, is not parseable JSON,
or parses to a non-array (so that `.map` throws the caught `TypeError`),
the load effect yields the empty list, reporting the failure only to the
diagnostic channel (the returned flag) and never to the caller (the
effect is a total function); a parsed array is decoded element-wise with
no validation of record shape; a valid stored representation decodes to
the original task list. -/
theorem claim_C7_load_behavior :
    loadResult Stored.absent = ([], false) ∧
    loadResult Stored.corrupt = ([], true) ∧
    (∀ j : Json, (∀ es, j ≠ Json.arr es) → loadResult (Stored.json j) = ([], true)) ∧
    (∀ es, (loadResult (Stored.json (Json.arr es))).1 = es.map decodeTodoJson ∧ (loadResult (Stored.json (Json.arr es))).2 = false) ∧
    (∀ todos : List Todo, (∀ t ∈ todos, t.createdAt ≤ maxIsoMs) →
      specDecodeStored (encodeTodos todos) = some todos) := by
  refine ⟨rfl, rfl, ?_, fun es => ⟨rfl, rfl⟩, specDecodeStored_encodeTodos⟩
  intro j hj
  cases j with
  | null => rfl
  | bool b => rfl
  | num n => rfl
  | str s => rfl
  | arr es => exact absurd rfl (hj es)
  | obj fields => rfl

theorem claim_C7_load_behavior_witness :
    loadResult (Stored.json (Json.str "nope")) = ([], true) ∧
    specDecodeStored (encodeTodos [tA]) = some [tA] := by
  refine ⟨?_, ?_⟩
  · exact claim_C7_load_behavior.2.2.1 (Json.str "nope") fun es h => Json.noConfusion h
  · exact claim_C7_load_behavior.2.2.2.2 [tA] (by decide)
